import Mathlib

/-!
# Verification of the movie_picker search/recommendation core

Shallow embedding of the parts of the `movie_picker` repository that the
claims concern, together with theorems settling each claim:

* `src/services/recommender.py` — `LRUCache`, `RecommenderService`
  (similarity sub-score, aggregator consensus, rating selection);
* `src/services/search.py` — `SearchService.search_movies` (candidate
  deduplication, branch fan-out, no-history sorting);
* `src/database/db.py` — persistent recommendation cache, user ratings,
  entity-affinity recomputation;
* `src/database/genre_utils.py` — genre normalization over the seeded table.

Python numbers are modelled with `ℚ`/`ℤ`/`ℕ`; database tables with explicit
functional state; `sorted` (stable) with `List.insertionSort` (stable).
-/

namespace MoviePicker

/-! ## LRU cache (`recommender.py`, class `LRUCache`)

The `OrderedDict` is modelled as an association list whose head is the
least-recently-accessed key and whose last element is the most recent one:
`move_to_end` moves an entry to the back, `popitem(last=False)` removes the
front entry.  The class is only instantiated with a positive `max_size`
(100 by default, 200 in `RecommenderService`). -/

variable {K V : Type} [DecidableEq K]

/-- First value bound to `k`, mirroring `key in self._cache` / `self._cache[key]`. -/
def lruFind (k : K) : List (K × V) → Option V
  | [] => none
  | (k₁, v) :: rest => if k₁ = k then some v else lruFind k rest

/-- Remove the entry for `k` (keys are unique in an `OrderedDict`). -/
def lruErase (k : K) : List (K × V) → List (K × V)
  | [] => []
  | (k₁, v) :: rest => if k₁ = k then rest else (k₁, v) :: lruErase k rest

structure LRUCache (K V : Type) where
  max_size : Nat
  entries : List (K × V)

/-- `LRUCache.get`: on a hit, `move_to_end` and return the value; else `None`. -/
def LRUCache.get (c : LRUCache K V) (k : K) : Option V × LRUCache K V :=
  match lruFind k c.entries with
  | some v => (some v, ⟨c.max_size, lruErase k c.entries ++ [(k, v)]⟩)
  | none => (none, c)

/-- `LRUCache.set`: existing keys are moved to the back and overwritten;
a new key first evicts the front entry when the cache is full
(`popitem(last=False)`), then is appended at the back. -/
def LRUCache.set (c : LRUCache K V) (k : K) (v : V) : LRUCache K V :=
  match lruFind k c.entries with
  | some _ => ⟨c.max_size, lruErase k c.entries ++ [(k, v)]⟩
  | none =>
    if c.max_size ≤ c.entries.length then
      ⟨c.max_size, c.entries.tail ++ [(k, v)]⟩
    else
      ⟨c.max_size, c.entries ++ [(k, v)]⟩

inductive LRUOp (K V : Type) where
  | get (k : K)
  | set (k : K) (v : V)

/-- Run a sequence of `get`/`set` operations against the cache. -/
def LRUCache.run (c : LRUCache K V) : List (LRUOp K V) → LRUCache K V
  | [] => c
  | LRUOp.get k :: rest => ((c.get k).2).run rest
  | LRUOp.set k v :: rest => (c.set k v).run rest

theorem lruFind_some_erase_length {k : K} {l : List (K × V)} {v : V}
    (h : lruFind k l = some v) : (lruErase k l).length + 1 = l.length := by
  induction l with
  | nil => simp [lruFind] at h
  | cons p rest ih =>
    by_cases hp : p.1 = k
    · simp [lruErase, hp]
    · simp [lruFind, hp] at h
      simp [lruErase, hp, ih h]

theorem lru_get_length (c : LRUCache K V) (k : K) :
    ((c.get k).2).entries.length = c.entries.length := by
  unfold LRUCache.get
  cases h : lruFind k c.entries with
  | none => rfl
  | some v =>
    simp only
    rw [List.length_append, List.length_singleton,
      lruFind_some_erase_length (V := V) h]

theorem lru_set_length_le (c : LRUCache K V) (k : K) (v : V)
    (hmax : 1 ≤ c.max_size) (hle : c.entries.length ≤ c.max_size) :
    (c.set k v).entries.length ≤ c.max_size := by
  unfold LRUCache.set
  cases h : lruFind k c.entries with
  | some w =>
    simp only
    rw [List.length_append, List.length_singleton,
      lruFind_some_erase_length (V := V) h]
    exact hle
  | none =>
    by_cases hfull : c.max_size ≤ c.entries.length
    · simp only [hfull, if_true]
      rw [List.length_append, List.length_singleton, List.length_tail]
      have hlen : 1 ≤ c.entries.length := le_trans hmax hfull
      omega
    · simp only [hfull, if_false]
      rw [List.length_append, List.length_singleton]
      omega

theorem lru_get_max (c : LRUCache K V) (k : K) :
    ((c.get k).2).max_size = c.max_size := by
  unfold LRUCache.get
  cases lruFind k c.entries <;> rfl

theorem lru_set_max (c : LRUCache K V) (k : K) (v : V) :
    (c.set k v).max_size = c.max_size := by
  unfold LRUCache.set
  cases lruFind k c.entries with
  | some w => rfl
  | none =>
    by_cases hfull : c.max_size ≤ c.entries.length <;> simp [hfull]

theorem lru_run_invariant (ops : List (LRUOp K V)) (c : LRUCache K V)
    (hmax : 1 ≤ c.max_size) (hle : c.entries.length ≤ c.max_size) :
    (c.run ops).max_size = c.max_size ∧
      (c.run ops).entries.length ≤ c.max_size := by
  induction ops generalizing c with
  | nil => exact ⟨rfl, hle⟩
  | cons op rest ih =>
    cases op with
    | get k =>
      have h1 := lru_get_max c k
      have h2 := lru_get_length c k
      have := ih ((c.get k).2) (h1 ▸ hmax) (by rw [h2, h1]; exact hle)
      simpa [LRUCache.run, h1] using this
    | set k v =>
      have h1 := lru_set_max c k v
      have h2 := lru_set_length_le c k v hmax hle
      have := ih (c.set k v) (h1 ▸ hmax) (by rw [h1]; exact h2)
      simpa [LRUCache.run, h1] using this

/-- **C10.** Across any sequence of `get`/`set` operations, the number of stored
keys never exceeds `max_size` (200 in `RecommenderService`), and a `set` of a
new key at capacity evicts exactly the least-recently-accessed entry (the front
of the order list), keeping everything else and appending the new key at the
back. -/
theorem lru_capacity_bound_and_eviction (c : LRUCache K V) (ops : List (LRUOp K V))
    (k : K) (v : V) (hmax : 1 ≤ c.max_size) (hle : c.entries.length ≤ c.max_size) :
    (c.run ops).entries.length ≤ c.max_size ∧
      (c.run ops).max_size = c.max_size ∧
      (lruFind k c.entries = none → c.entries.length = c.max_size →
        (c.set k v).entries = c.entries.tail ++ [(k, v)]) := by
  refine ⟨(lru_run_invariant ops c hmax hle).2, (lru_run_invariant ops c hmax hle).1, ?_⟩
  intro hnew hfull
  unfold LRUCache.set
  rw [hnew]
  simp [hfull]

/-- Witness for C10 at a concrete cache of capacity 2: after `set 1`, `set 2`,
`get 1`, the least-recently-accessed key is `2`, and `set 3` evicts it. -/
theorem lru_capacity_bound_and_eviction_witness :
    (((LRUCache.mk 2 [] : LRUCache Nat Nat).run
        [LRUOp.set 1 10, LRUOp.set 2 20, LRUOp.get 1]).entries.length ≤ 2) ∧
      ((LRUCache.mk 2 [(2, 20), (1, 10)] : LRUCache Nat Nat).set 3 30).entries
        = [(1, 10), (3, 30)] := by
  have h := lru_capacity_bound_and_eviction
    (LRUCache.mk 2 [(2, 20), (1, 10)] : LRUCache Nat Nat) [] 3 30
    (by decide) (by decide)
  have h2 := lru_capacity_bound_and_eviction
    (LRUCache.mk 2 [] : LRUCache Nat Nat) [LRUOp.set 1 10, LRUOp.set 2 20, LRUOp.get 1] 3 30
    (by decide) (by decide)
  exact ⟨h2.1, by simpa using h.2.2 (by decide) (by decide)⟩

/-! ## Persistent recommendation cache (`db.py`)

`get_cached_recommendations` / `save_cached_recommendations` over the
`recommendation_cache` table.  The table is keyed by
`(source_tmdb_id, source_is_tv)` with a unique constraint, so the store is a
function from keys to at most one row.  Timestamps are integer seconds;
`timedelta(days=d)` is `d * 86400` seconds.  `save` stores
`json.dumps(recommended_ids)`, which is non-empty text even for `[]`, so
`get` decodes it back to exactly the stored list. -/

/-- A `recommendation_cache` row: decoded `recommended_ids` plus `updated_at`. -/
structure CacheRow where
  recommended_ids : List Nat
  updated_at : Int
  deriving DecidableEq

/-- The persistent store: key `(source_tmdb_id, source_is_tv)` to at most one row. -/
def RecStore : Type := Nat × Bool → Option CacheRow

/-- `get_cached_recommendations(session, tmdb_id, is_tv, max_age_days)`:
`None` if no row, `None` if `now - updated_at > timedelta(days=max_age_days)`,
else the decoded id list. -/
def get_cached_recommendations (db : RecStore) (key : Nat × Bool)
    (now : Int) (max_age_days : Int) : Option (List Nat) :=
  match db key with
  | none => none
  | some row =>
    if max_age_days * 86400 < now - row.updated_at then none
    else some row.recommended_ids

/-- `save_cached_recommendations(session, tmdb_id, is_tv, recommended_ids)`:
insert or overwrite the single row for the key, stamping it with `utc_now()`. -/
def save_cached_recommendations (db : RecStore) (key : Nat × Bool)
    (ids : List Nat) (now : Int) : RecStore :=
  fun k2 => if k2 = key then some ⟨ids, now⟩ else db k2

/-- **C3.** `put(k,v)` then `get(k)` within the 7-day max-age window returns
exactly `v`; once the age exceeds 7 days `get` returns `none` while the
underlying row still exists (with value `v`); the row is replaced by the next
`put(k, _)` and a `put` touches no other key. -/
theorem rec_cache_roundtrip_expiry_persistence (db : RecStore) (key : Nat × Bool)
    (ids ids2 : List Nat) (t tGet t2 : Int)
    (hin : tGet - t ≤ 7 * 86400) (hout : 7 * 86400 < t2 - t) :
    get_cached_recommendations (save_cached_recommendations db key ids t) key tGet 7
        = some ids ∧
      get_cached_recommendations (save_cached_recommendations db key ids t) key t2 7
        = none ∧
      (save_cached_recommendations db key ids t) key = some ⟨ids, t⟩ ∧
      (save_cached_recommendations (save_cached_recommendations db key ids t)
          key ids2 t2) key = some ⟨ids2, t2⟩ ∧
      (∀ k2, k2 ≠ key → (save_cached_recommendations db key ids t) k2 = db k2) := by
  have hrow : (save_cached_recommendations db key ids t) key = some ⟨ids, t⟩ := by
    simp [save_cached_recommendations]
  refine ⟨?_, ?_, ?_, ?_, ?_⟩
  · simp only [get_cached_recommendations, hrow]
    rw [if_neg (by omega)]
  · simp only [get_cached_recommendations, hrow]
    rw [if_pos (by omega)]
  · simp [save_cached_recommendations]
  · simp [save_cached_recommendations]
  · intro k2 hk2
    simp [save_cached_recommendations, hk2]

/-- Witness for C3 at key `(100, false)`, value `[7, 8]`, written at time `0`,
read at times `3600` (fresh) and `700000` (older than 7 days). -/
theorem rec_cache_roundtrip_expiry_persistence_witness :
    get_cached_recommendations
        (save_cached_recommendations (fun _ => none) (100, false) [7, 8] 0)
        (100, false) 3600 7 = some [7, 8] ∧
      get_cached_recommendations
        (save_cached_recommendations (fun _ => none) (100, false) [7, 8] 0)
        (100, false) 700000 7 = none := by
  have h := rec_cache_roundtrip_expiry_persistence (fun _ => none) (100, false)
    [7, 8] [9] 0 3600 700000 (by decide) (by decide)
  exact ⟨h.1, h.2.1⟩

/-! ## Scoring engine (`recommender.py`, class `RecommenderService`)

Ratings are Python ints (1–10) modelled as `ℤ`; scores are `ℚ`.
`ur.movie` is resolved to its identity key `(kinopoisk_id, is_tv)`; it may be
`None` (the loop skips such entries).  Recommendation lists are a function
from keys (the cache/preload lookup the code performs per selected rating). -/

/-- Scoring weight `WEIGHT_TMDB_SIMILARITY = 1.0`. -/
def WEIGHT_TMDB_SIMILARITY : ℚ := 1

/-- Limit `MAX_RATED_MOVIES_FOR_SIMILARITY = 30`. -/
def MAX_RATED_MOVIES_FOR_SIMILARITY : Nat := 30

/-- A `UserRating` row as the similarity computation sees it. -/
structure RatedEntry where
  rating : Int
  movie : Option (Nat × Bool)
  deriving DecidableEq

/-- Sort key relation for `sorted(liked, key=rating, reverse=True)` (stable). -/
def likedRel (a b : RatedEntry) : Prop := b.rating ≤ a.rating

/-- Sort key relation for `sorted(disliked, key=rating)` (stable, lowest first). -/
def dislikedRel (a b : RatedEntry) : Prop := a.rating ≤ b.rating

instance : DecidableRel likedRel :=
  fun a b => inferInstanceAs (Decidable (b.rating ≤ a.rating))

instance : DecidableRel dislikedRel :=
  fun a b => inferInstanceAs (Decidable (a.rating ≤ b.rating))

instance : IsTotal RatedEntry likedRel :=
  ⟨fun a b => le_total b.rating a.rating⟩

instance : IsTrans RatedEntry likedRel :=
  ⟨fun _ _ _ hab hbc => le_trans hbc hab⟩

instance : IsTotal RatedEntry dislikedRel :=
  ⟨fun a b => le_total a.rating b.rating⟩

instance : IsTrans RatedEntry dislikedRel :=
  ⟨fun _ _ _ hab hbc => le_trans hab hbc⟩

/-- `sorted([ur for ur in user_ratings if ur.rating >= 6], reverse by rating)`. -/
def likedDesc (urs : List RatedEntry) : List RatedEntry :=
  List.insertionSort likedRel (urs.filter (fun ur => 6 ≤ ur.rating))

/-- `sorted([ur for ur in user_ratings if ur.rating <= 4], by rating)`. -/
def dislikedAsc (urs : List RatedEntry) : List RatedEntry :=
  List.insertionSort dislikedRel (urs.filter (fun ur => ur.rating ≤ 4))

/-- `selected_ratings = top_liked + top_disliked` with `half_limit = 30 // 2`. -/
def selectedRatings (urs : List RatedEntry) : List RatedEntry :=
  (likedDesc urs).take (MAX_RATED_MOVIES_FOR_SIMILARITY / 2)
    ++ (dislikedAsc urs).take (MAX_RATED_MOVIES_FOR_SIMILARITY / 2)

/-- `max(0.1, 1.0 - i * 0.05)`. -/
def positionWeight (i : Nat) : ℚ := max (1 / 10) (1 - (i : ℚ) * (1 / 20))

/-- Index of the first occurrence of `cand`, mirroring the
`for i, rec_id in enumerate(rec_ids): if rec_id == movie_id: ...; break` scan. -/
def firstIdx (cand : Nat) : List Nat → Option Nat
  | [] => none
  | x :: rest => if x = cand then some 0 else (firstIdx cand rest).map (· + 1)

/-- Contribution of one selected rating given its recommendation id list:
the loop scans `rec_ids` for the first index equal to the candidate id and,
on a hit, adds `(rating - 5) * position_weight` and breaks; a list without
the candidate contributes nothing. -/
def recContribution (rating : Int) (rec_ids : List Nat) (candidate : Nat) : ℚ :=
  match firstIdx candidate rec_ids with
  | some i => ((rating : ℚ) - 5) * positionWeight i
  | none => 0

/-- Per-entry contribution: entries whose `ur.movie` is `None` are skipped. -/
def entryContribution (recs : Nat × Bool → List Nat) (candidate : Nat)
    (ur : RatedEntry) : ℚ :=
  match ur.movie with
  | none => 0
  | some key => recContribution ur.rating (recs key) candidate

/-- `RecommenderService._tmdb_similarity_score`: `0.0` with no ratings, else
the running sum of per-entry contributions over the selected ratings. -/
def tmdb_similarity_score (user_ratings : List RatedEntry)
    (recs : Nat × Bool → List Nat) (candidate : Nat) : ℚ :=
  if user_ratings.isEmpty then 0
  else (selectedRatings user_ratings).foldl
    (fun acc ur => acc + entryContribution recs candidate ur) 0

theorem foldl_add_eq_sum {α : Type} (f : α → ℚ) (l : List α) (a : ℚ) :
    l.foldl (fun acc x => acc + f x) a = a + (l.map f).sum := by
  induction l generalizing a with
  | nil => simp
  | cons x rest ih => simp [ih, add_assoc]

theorem firstIdx_none_of_not_mem {cand : Nat} {l : List Nat} (h : cand ∉ l) :
    firstIdx cand l = none := by
  induction l with
  | nil => rfl
  | cons x rest ih =>
    have hx : x ≠ cand := fun he => h (he ▸ List.mem_cons_self x rest)
    have hrest : cand ∉ rest := fun hm => h (List.mem_cons_of_mem x hm)
    rw [firstIdx, if_neg hx, ih hrest]
    rfl

/-- **C2.** The similarity sub-score is the sum of per-selected-rating
contributions; a selected rating `r` whose recommendation list first matches
the candidate at 0-indexed position `i` contributes exactly
`(r - 5) * max(0.1, 1.0 - 0.05 * i)`, and a list not containing the candidate
contributes exactly `0`. -/
theorem similarity_contribution_per_item (urs : List RatedEntry)
    (recs : Nat × Bool → List Nat) (cand : Nat) (ur : RatedEntry)
    (key : Nat × Bool) (i : Nat) :
    (urs ≠ [] → tmdb_similarity_score urs recs cand
        = ((selectedRatings urs).map (entryContribution recs cand)).sum) ∧
      (ur.movie = some key → firstIdx cand (recs key) = some i →
        entryContribution recs cand ur
          = ((ur.rating : ℚ) - 5) * max (1 / 10) (1 - (i : ℚ) * (1 / 20))) ∧
      (ur.movie = some key → cand ∉ recs key →
        entryContribution recs cand ur = 0) := by
  refine ⟨?_, ?_, ?_⟩
  · intro hne
    rw [tmdb_similarity_score, if_neg (by simpa using hne),
      foldl_add_eq_sum, zero_add]
  · intro hmov hfind
    rw [entryContribution, hmov]
    simp only
    rw [recContribution, hfind]
    rfl
  · intro hmov hnotmem
    rw [entryContribution, hmov]
    simp only
    rw [recContribution, firstIdx_none_of_not_mem hnotmem]

/-- Recommendation lookup for the C2 scenario: item `(100, movie)` has the
candidate `200` at position 0 of its cached list. -/
def scenarioRecs : Nat × Bool → List Nat :=
  fun key => if key = (100, false) then [200] else []

/-- Witness for C2: one item rated 9 whose cached list has the candidate at
position 0 gives similarity contribution `1.0 * (9 - 5) * 1.0 = 4.0`. -/
theorem similarity_contribution_per_item_witness :
    entryContribution scenarioRecs 200 ⟨9, some (100, false)⟩ = 4 ∧
      WEIGHT_TMDB_SIMILARITY
        * tmdb_similarity_score [⟨9, some (100, false)⟩] scenarioRecs 200 = 4 := by
  have h := similarity_contribution_per_item [⟨9, some (100, false)⟩]
    scenarioRecs 200 ⟨9, some (100, false)⟩ (100, false) 0
  have hentry := h.2.1 rfl (by decide)
  have hsum := h.1 (by decide)
  constructor
  · rw [hentry]; norm_num [positionWeight]
  · rw [WEIGHT_TMDB_SIMILARITY, one_mul, hsum]
    have hsel : selectedRatings [⟨9, some (100, false)⟩]
        = [⟨9, some (100, false)⟩] := by decide
    rw [hsel, List.map_singleton, List.sum_singleton, hentry]
    norm_num

/-- **C4.** The ratings used by the similarity sub-score are exactly the top
`30 / 2 = 15` liked ratings (`rating ≥ 6`, highest first) plus the top 15
disliked ratings (`rating ≤ 4`, lowest first): at most 30 in total, every
selected rating is `≥ 6` or `≤ 4` (never 5), each half is a maximal slice of
the sorted, filtered history, and each sorted half is a permutation of the
corresponding filtered history. -/
theorem similarity_selection_spec (urs : List RatedEntry) :
    selectedRatings urs
        = (likedDesc urs).take 15 ++ (dislikedAsc urs).take 15 ∧
      (∀ ur ∈ selectedRatings urs, 6 ≤ ur.rating ∨ ur.rating ≤ 4) ∧
      (∀ ur ∈ selectedRatings urs, ur.rating ≠ 5) ∧
      (selectedRatings urs).length ≤ 30 ∧
      ((likedDesc urs).take 15).length
        = min 15 (urs.filter (fun ur => 6 ≤ ur.rating)).length ∧
      ((dislikedAsc urs).take 15).length
        = min 15 (urs.filter (fun ur => ur.rating ≤ 4)).length ∧
      (∀ x ∈ (likedDesc urs).take 15, ∀ y ∈ (likedDesc urs).drop 15,
        y.rating ≤ x.rating) ∧
      (∀ x ∈ (dislikedAsc urs).take 15, ∀ y ∈ (dislikedAsc urs).drop 15,
        x.rating ≤ y.rating) ∧
      (likedDesc urs).Perm (urs.filter (fun ur => 6 ≤ ur.rating)) ∧
      (dislikedAsc urs).Perm (urs.filter (fun ur => ur.rating ≤ 4)) := by
  have hsel : selectedRatings urs
      = (likedDesc urs).take 15 ++ (dislikedAsc urs).take 15 := rfl
  have hperm1 : (likedDesc urs).Perm (urs.filter (fun ur => 6 ≤ ur.rating)) :=
    List.perm_insertionSort likedRel _
  have hperm2 : (dislikedAsc urs).Perm (urs.filter (fun ur => ur.rating ≤ 4)) :=
    List.perm_insertionSort dislikedRel _
  have hmemL : ∀ ur ∈ (likedDesc urs).take 15, 6 ≤ ur.rating := by
    intro ur hur
    have hm := hperm1.mem_iff.mp (List.mem_of_mem_take hur)
    simpa using (List.mem_filter.mp hm).2
  have hmemD : ∀ ur ∈ (dislikedAsc urs).take 15, ur.rating ≤ 4 := by
    intro ur hur
    have hm := hperm2.mem_iff.mp (List.mem_of_mem_take hur)
    simpa using (List.mem_filter.mp hm).2
  have hmem : ∀ ur ∈ selectedRatings urs, 6 ≤ ur.rating ∨ ur.rating ≤ 4 := by
    intro ur hur
    rw [hsel] at hur
    rcases List.mem_append.mp hur with h | h
    · exact Or.inl (hmemL ur h)
    · exact Or.inr (hmemD ur h)
  refine ⟨hsel, hmem, ?_, ?_, ?_, ?_, ?_, ?_, hperm1, hperm2⟩
  · intro ur hur
    rcases hmem ur hur with h | h <;> omega
  · rw [hsel, List.length_append]
    have h1 := List.length_take_le 15 (likedDesc urs)
    have h2 := List.length_take_le 15 (dislikedAsc urs)
    omega
  · rw [List.length_take, hperm1.length_eq]
  · rw [List.length_take, hperm2.length_eq]
  · have hp : List.Pairwise likedRel
        ((likedDesc urs).take 15 ++ (likedDesc urs).drop 15) := by
      rw [List.take_append_drop]
      exact List.sorted_insertionSort likedRel _
    intro x hx y hy
    exact (List.pairwise_append.mp hp).2.2 x hx y hy
  · have hp : List.Pairwise dislikedRel
        ((dislikedAsc urs).take 15 ++ (dislikedAsc urs).drop 15) := by
      rw [List.take_append_drop]
      exact List.sorted_insertionSort dislikedRel _
    intro x hx y hy
    exact (List.pairwise_append.mp hp).2.2 x hx y hy

/-- Witness for C4 at a concrete history with ratings 9, 5 and 3: the rating-9
entry is selected and is not neutral, and the selection stays within the cap. -/
theorem similarity_selection_spec_witness :
    ((⟨9, some (1, false)⟩ : RatedEntry).rating ≠ 5) ∧
      ((selectedRatings
        [⟨9, some (1, false)⟩, ⟨5, some (2, false)⟩, ⟨3, none⟩]).length ≤ 30) := by
  have h := similarity_selection_spec
    [⟨9, some (1, false)⟩, ⟨5, some (2, false)⟩, ⟨3, none⟩]
  exact ⟨h.2.2.1 ⟨9, some (1, false)⟩ (by decide), h.2.2.2.1⟩

/-! ## Aggregator consensus and the no-history sort order

`RecommenderService._calculate_aggregator_score` and
`SearchService._sort_by_user_preference`.  A `Movie` row is restricted to the
rating fields these functions read.  Python truthiness (`if movie.x:`) skips
both `None` and `0`. -/

/-- The rating fields of a `movies` row used by consensus and the no-history
sort. -/
structure MovieRow where
  kinopoisk_id : Nat
  is_tv : Bool
  tmdb_rating : Option ℚ
  imdb_rating : Option ℚ
  rotten_tomatoes : Option Int
  metacritic : Option Int
  deriving DecidableEq

/-- `if movie.x: scores.append(movie.x)` — truthy test on an optional float. -/
def truthyQ (o : Option ℚ) : List ℚ :=
  match o with
  | none => []
  | some v => if v = 0 then [] else [v]

/-- `if movie.x: scores.append(movie.x / 10)` — truthy test on an optional
0–100 integer score, converted to the 1–10 scale. -/
def truthyPct (o : Option Int) : List ℚ :=
  match o with
  | none => []
  | some v => if v = 0 then [] else [(v : ℚ) / 10]

/-- The `scores` list built by `_calculate_aggregator_score`, in program order:
`tmdb_rating`, `imdb_rating`, `rotten_tomatoes / 10`, `metacritic / 10`. -/
def aggregatorScores (m : MovieRow) : List ℚ :=
  truthyQ m.tmdb_rating ++ truthyQ m.imdb_rating
    ++ truthyPct m.rotten_tomatoes ++ truthyPct m.metacritic

/-- `RecommenderService._calculate_aggregator_score`: mean of the available
scores, `5.0` (neutral) when none. -/
def calculate_aggregator_score (m : MovieRow) : ℚ :=
  let scores := aggregatorScores m
  if scores.isEmpty then 5 else scores.sum / scores.length

/-- The sort key of the no-history branch: `m.tmdb_rating or 0`. -/
def tmdbOrZero (m : MovieRow) : ℚ := m.tmdb_rating.getD 0

/-- Sort relation of `sorted(movies, key=lambda m: m.tmdb_rating or 0,
reverse=True)` (stable descending). -/
def tmdbDescRel (a b : MovieRow) : Prop := tmdbOrZero b ≤ tmdbOrZero a

instance : DecidableRel tmdbDescRel :=
  fun a b => inferInstanceAs (Decidable (tmdbOrZero b ≤ tmdbOrZero a))

instance : IsTotal MovieRow tmdbDescRel :=
  ⟨fun a b => le_total (tmdbOrZero b) (tmdbOrZero a)⟩

instance : IsTrans MovieRow tmdbDescRel :=
  ⟨fun _ _ _ hab hbc => le_trans hbc hab⟩

/-- The no-ratings branch of `SearchService._sort_by_user_preference`:
`sorted(movies, key=lambda m: m.tmdb_rating or 0, reverse=True)`. -/
def sort_no_history (movies : List MovieRow) : List MovieRow :=
  List.insertionSort tmdbDescRel movies

/-- Counterexample row for C1: no TMDB rating, IMDB rating 9. -/
def cexNoTmdb : MovieRow := ⟨201, false, none, some 9, none, none⟩

/-- Counterexample row for C1: TMDB rating 5, no other external rating. -/
def cexTmdbFive : MovieRow := ⟨202, false, some 5, none, none, none⟩

/-- **C1, counterexample.** With zero user ratings the code sorts by
`tmdb_rating or 0`, not by aggregator consensus: a row with consensus 9 (IMDB
only) is placed after a row with consensus 5 (TMDB only), so the returned
order is not descending in consensus. -/
theorem no_history_order_not_consensus :
    sort_no_history [cexNoTmdb, cexTmdbFive] = [cexTmdbFive, cexNoTmdb] ∧
      calculate_aggregator_score cexNoTmdb = 9 ∧
      calculate_aggregator_score cexTmdbFive = 5 ∧
      calculate_aggregator_score cexTmdbFive
        < calculate_aggregator_score cexNoTmdb := by
  have h1 : calculate_aggregator_score cexNoTmdb = 9 := by
    norm_num [calculate_aggregator_score, aggregatorScores, cexNoTmdb,
      truthyQ, truthyPct]
  have h2 : calculate_aggregator_score cexTmdbFive = 5 := by
    norm_num [calculate_aggregator_score, aggregatorScores, cexTmdbFive,
      truthyQ, truthyPct]
  refine ⟨by decide, h1, h2, ?_⟩
  rw [h1, h2]
  norm_num

/-- **C1, amended.** With zero user ratings, the returned list is the input
stably sorted by descending `tmdb_rating or 0` (a missing TMDB rating counts
as 0); the other external ratings play no role. -/
theorem no_history_sorted_by_tmdb_rating (movies : List MovieRow) :
    (sort_no_history movies).Perm movies ∧
      (sort_no_history movies).Sorted tmdbDescRel := by
  exact ⟨List.perm_insertionSort tmdbDescRel movies,
    List.sorted_insertionSort tmdbDescRel movies⟩

/-! ## Search aggregator: deduplication and branch fan-out (`search.py`)

`SearchService.search_movies` collects candidates `(kinopoisk_id, is_tv)`
from recommendation seeding, provider fan-out and the local store, guarded
everywhere by the same pattern: skip falsy ids, then
`if id not in target_set: target_set.add(id); append(result)` with
`target_set = seen_tv_ids if is_tv else seen_movie_ids`.  `0` stands for a
falsy (`None`/`0`) id.  Each concurrent branch is a `future.result()` wrapped
in `try/except Exception: pass`, modelled as `Except Unit` of its result
list. -/

/-- The mutable collection state of one `search_movies` invocation. -/
structure DedupState where
  seen_movie_ids : List Nat
  seen_tv_ids : List Nat
  results : List (Nat × Bool)
  deriving DecidableEq

def emptyDedup : DedupState := ⟨[], [], []⟩

/-- One iteration of the collection loop body. -/
def dedupStep (s : DedupState) (r : Nat × Bool) : DedupState :=
  if r.1 = 0 then s
  else if r.2 then
    if r.1 ∈ s.seen_tv_ids then s
    else ⟨s.seen_movie_ids, r.1 :: s.seen_tv_ids, s.results ++ [r]⟩
  else
    if r.1 ∈ s.seen_movie_ids then s
    else ⟨r.1 :: s.seen_movie_ids, s.seen_tv_ids, s.results ++ [r]⟩

/-- Process one branch's result list. -/
def processResults (s : DedupState) (rs : List (Nat × Bool)) : DedupState :=
  rs.foldl dedupStep s

/-- The `as_completed` loop over concurrent branches: a branch that raised is
caught at the boundary (`except Exception: pass`) and contributes nothing. -/
def gatherBranches (s : DedupState)
    (branches : List (Except Unit (List (Nat × Bool)))) : DedupState :=
  branches.foldl
    (fun st b =>
      match b with
      | Except.error _ => st
      | Except.ok rs => processResults st rs) s

/-- The key `r` is in the dedup set for its content type. -/
def seenKey (s : DedupState) (r : Nat × Bool) : Prop :=
  r.1 ∈ (if r.2 then s.seen_tv_ids else s.seen_movie_ids)

/-- The dedup sets track exactly the keys of the collected results (split by
content type). -/
def DInv (s : DedupState) : Prop :=
  (∀ n, n ∈ s.seen_tv_ids ↔ (n, true) ∈ s.results) ∧
    (∀ n, n ∈ s.seen_movie_ids ↔ (n, false) ∈ s.results)

theorem dinv_empty : DInv emptyDedup := by
  constructor <;> intro n <;> simp [emptyDedup]

theorem dinv_nodup_step {s : DedupState} (r : Nat × Bool)
    (h : DInv s) (hnd : s.results.Nodup) :
    DInv (dedupStep s r) ∧ (dedupStep s r).results.Nodup := by
  obtain ⟨htv, hmv⟩ := h
  obtain ⟨n, tv⟩ := r
  by_cases h0 : n = 0
  · simpa [dedupStep, h0] using ⟨⟨htv, hmv⟩, hnd⟩
  cases tv
  · by_cases hseen : n ∈ s.seen_movie_ids
    · simpa [dedupStep, h0, hseen] using ⟨⟨htv, hmv⟩, hnd⟩
    · have hnot : (n, false) ∉ s.results := fun hc => hseen ((hmv n).mpr hc)
      have hstate : dedupStep s (n, false)
          = ⟨n :: s.seen_movie_ids, s.seen_tv_ids, s.results ++ [(n, false)]⟩ := by
        simp [dedupStep, h0, hseen]
      rw [hstate]
      refine ⟨⟨?_, ?_⟩, ?_⟩
      · intro m
        rw [List.mem_append]
        constructor
        · intro hm
          exact Or.inl ((htv m).mp hm)
        · rintro (hm | hm)
          · exact (htv m).mpr hm
          · simp at hm
      · intro m
        rw [List.mem_cons, List.mem_append]
        constructor
        · rintro (hm | hm)
          · exact Or.inr (by simp [hm])
          · exact Or.inl ((hmv m).mp hm)
        · rintro (hm | hm)
          · exact Or.inr ((hmv m).mpr hm)
          · exact Or.inl (by simpa using hm)
      · rw [List.nodup_append]
        refine ⟨hnd, List.nodup_singleton _, ?_⟩
        intro a ha hb
        simp only [List.mem_singleton] at hb
        subst hb
        exact hnot ha
  · by_cases hseen : n ∈ s.seen_tv_ids
    · simpa [dedupStep, h0, hseen] using ⟨⟨htv, hmv⟩, hnd⟩
    · have hnot : (n, true) ∉ s.results := fun hc => hseen ((htv n).mpr hc)
      have hstate : dedupStep s (n, true)
          = ⟨s.seen_movie_ids, n :: s.seen_tv_ids, s.results ++ [(n, true)]⟩ := by
        simp [dedupStep, h0, hseen]
      rw [hstate]
      refine ⟨⟨?_, ?_⟩, ?_⟩
      · intro m
        rw [List.mem_cons, List.mem_append]
        constructor
        · rintro (hm | hm)
          · exact Or.inr (by simp [hm])
          · exact Or.inl ((htv m).mp hm)
        · rintro (hm | hm)
          · exact Or.inr ((htv m).mpr hm)
          · exact Or.inl (by simpa using hm)
      · intro m
        rw [List.mem_append]
        constructor
        · intro hm
          exact Or.inl ((hmv m).mp hm)
        · rintro (hm | hm)
          · exact (hmv m).mpr hm
          · simp at hm
      · rw [List.nodup_append]
        refine ⟨hnd, List.nodup_singleton _, ?_⟩
        intro a ha hb
        simp only [List.mem_singleton] at hb
        subst hb
        exact hnot ha

theorem dinv_nodup_process {s : DedupState} (rs : List (Nat × Bool))
    (h : DInv s) (hnd : s.results.Nodup) :
    DInv (processResults s rs) ∧ (processResults s rs).results.Nodup := by
  induction rs generalizing s with
  | nil => exact ⟨h, hnd⟩
  | cons r rest ih =>
    have hstep := dinv_nodup_step r h hnd
    exact ih hstep.1 hstep.2

theorem dinv_nodup_gather {s : DedupState}
    (branches : List (Except Unit (List (Nat × Bool))))
    (h : DInv s) (hnd : s.results.Nodup) :
    DInv (gatherBranches s branches)
      ∧ (gatherBranches s branches).results.Nodup := by
  induction branches generalizing s with
  | nil => exact ⟨h, hnd⟩
  | cons b rest ih =>
    cases b with
    | error e => exact ih h hnd
    | ok rs =>
      have hp := dinv_nodup_process rs h hnd
      exact ih hp.1 hp.2

theorem seenKey_mono_step (s : DedupState) (x r : Nat × Bool)
    (h : seenKey s r) : seenKey (dedupStep s x) r := by
  obtain ⟨n, tv⟩ := x
  unfold seenKey at h ⊢
  by_cases h0 : n = 0
  · simpa [dedupStep, h0] using h
  cases tv
  · by_cases hseen : n ∈ s.seen_movie_ids
    · simpa [dedupStep, h0, hseen] using h
    · have hstate : dedupStep s (n, false)
          = ⟨n :: s.seen_movie_ids, s.seen_tv_ids, s.results ++ [(n, false)]⟩ := by
        simp [dedupStep, h0, hseen]
      rw [hstate]
      cases hr2 : r.2 <;> simp only [hr2] at h ⊢ <;> simp at h ⊢
      · exact Or.inr h
      · exact h
  · by_cases hseen : n ∈ s.seen_tv_ids
    · simpa [dedupStep, h0, hseen] using h
    · have hstate : dedupStep s (n, true)
          = ⟨s.seen_movie_ids, n :: s.seen_tv_ids, s.results ++ [(n, true)]⟩ := by
        simp [dedupStep, h0, hseen]
      rw [hstate]
      cases hr2 : r.2 <;> simp only [hr2] at h ⊢ <;> simp at h ⊢
      · exact h
      · exact Or.inr h

theorem seenKey_step_self (s : DedupState) (r : Nat × Bool) (h0 : r.1 ≠ 0) :
    seenKey (dedupStep s r) r := by
  obtain ⟨n, tv⟩ := r
  simp only at h0
  cases tv
  · by_cases hseen : n ∈ s.seen_movie_ids
    · simp [dedupStep, h0, hseen, seenKey]
    · have hstate : dedupStep s (n, false)
          = ⟨n :: s.seen_movie_ids, s.seen_tv_ids, s.results ++ [(n, false)]⟩ := by
        simp [dedupStep, h0, hseen]
      rw [seenKey, hstate]
      simp
  · by_cases hseen : n ∈ s.seen_tv_ids
    · simp [dedupStep, h0, hseen, seenKey]
    · have hstate : dedupStep s (n, true)
          = ⟨s.seen_movie_ids, n :: s.seen_tv_ids, s.results ++ [(n, true)]⟩ := by
        simp [dedupStep, h0, hseen]
      rw [seenKey, hstate]
      simp

theorem seenKey_mono_process (s : DedupState) (rs : List (Nat × Bool))
    (r : Nat × Bool) (h : seenKey s r) : seenKey (processResults s rs) r := by
  induction rs generalizing s with
  | nil => exact h
  | cons x rest ih => exact ih (dedupStep s x) (seenKey_mono_step s x r h)

theorem seenKey_process_self (s : DedupState) (rs : List (Nat × Bool))
    (r : Nat × Bool) (hr : r ∈ rs) (h0 : r.1 ≠ 0) :
    seenKey (processResults s rs) r := by
  induction rs generalizing s with
  | nil => cases hr
  | cons x rest ih =>
    rcases List.mem_cons.mp hr with he | hm
    · subst he
      exact seenKey_mono_process (dedupStep s r) rest r (seenKey_step_self s r h0)
    · exact ih (dedupStep s x) hm

theorem seenKey_mono_gather (s : DedupState)
    (branches : List (Except Unit (List (Nat × Bool)))) (r : Nat × Bool)
    (h : seenKey s r) : seenKey (gatherBranches s branches) r := by
  induction branches generalizing s with
  | nil => exact h
  | cons b rest ih =>
    cases b with
    | error e => exact ih s h
    | ok rs => exact ih (processResults s rs) (seenKey_mono_process s rs r h)

theorem seenKey_gather_of_ok (s : DedupState)
    (branches : List (Except Unit (List (Nat × Bool))))
    (rs : List (Nat × Bool)) (r : Nat × Bool)
    (hb : Except.ok rs ∈ branches) (hr : r ∈ rs) (h0 : r.1 ≠ 0) :
    seenKey (gatherBranches s branches) r := by
  induction branches generalizing s with
  | nil => cases hb
  | cons b rest ih =>
    rcases List.mem_cons.mp hb with he | hm
    · subst he
      exact seenKey_mono_gather (processResults s rs) rest r
        (seenKey_process_self s rs r hr h0)
    · cases b with
      | error e => exact ih s hm
      | ok rs2 => exact ih (processResults s rs2) hm

/-- The successful branches, in completion order. -/
def okBranches (branches : List (Except Unit (List (Nat × Bool)))) :
    List (List (Nat × Bool)) :=
  branches.filterMap Except.toOption

theorem gather_eq_ok_fold (s : DedupState)
    (branches : List (Except Unit (List (Nat × Bool)))) :
    gatherBranches s branches = (okBranches branches).foldl processResults s := by
  induction branches generalizing s with
  | nil => rfl
  | cons b rest ih =>
    cases b with
    | error e =>
      have hok : okBranches (Except.error e :: rest) = okBranches rest := by
        simp [okBranches, Except.toOption]
      rw [hok]
      exact ih s
    | ok rs =>
      have hok : okBranches (Except.ok rs :: rest) = rs :: okBranches rest := by
        simp [okBranches, Except.toOption]
      rw [hok]
      exact ih (processResults s rs)

/-- **C6.** The fan-out loop is a total function of the branch outcomes: it
equals the fold over the successful branches only (so the whole search never
propagates a branch exception), dropping one failed branch anywhere leaves the
gathered state exactly as if that branch had not existed, and every non-falsy
result of every successful branch ends up in the collected results. -/
theorem branch_failure_isolation (s : DedupState)
    (pre post branches : List (Except Unit (List (Nat × Bool))))
    (rs : List (Nat × Bool)) (r : Nat × Bool)
    (hd : DInv s) (hnd : s.results.Nodup) :
    gatherBranches s branches = (okBranches branches).foldl processResults s ∧
      gatherBranches s (pre ++ Except.error () :: post)
        = gatherBranches s (pre ++ post) ∧
      (Except.ok rs ∈ branches → r ∈ rs → r.1 ≠ 0 →
        r ∈ (gatherBranches s branches).results) := by
  refine ⟨gather_eq_ok_fold s branches, ?_, ?_⟩
  · rw [gather_eq_ok_fold, gather_eq_ok_fold]
    have : okBranches (pre ++ Except.error () :: post) = okBranches (pre ++ post) := by
      simp [okBranches, List.filterMap_append, Except.toOption]
    rw [this]
  · intro hb hr h0
    have hseen := seenKey_gather_of_ok s branches rs r hb hr h0
    have hdfin := (dinv_nodup_gather branches hd hnd).1
    obtain ⟨n, tv⟩ := r
    cases tv
    · exact (hdfin.2 n).mp (by simpa [seenKey] using hseen)
    · exact (hdfin.1 n).mp (by simpa [seenKey] using hseen)

/-- Witness for C6: of three branches, the middle one fails; the gather equals
the two-branch gather and both surviving branches' results are returned. -/
theorem branch_failure_isolation_witness :
    gatherBranches emptyDedup
        [Except.ok [(1, false)], Except.error (), Except.ok [(2, false)]]
      = gatherBranches emptyDedup [Except.ok [(1, false)], Except.ok [(2, false)]] ∧
      (gatherBranches emptyDedup
          [Except.ok [(1, false)], Except.error (), Except.ok [(2, false)]]).results
        = [(1, false), (2, false)] := by
  have h := branch_failure_isolation emptyDedup [Except.ok [(1, false)]]
    [Except.ok [(2, false)]]
    [Except.ok [(1, false)], Except.error (), Except.ok [(2, false)]]
    [(2, false)] (2, false) dinv_empty (by simp [emptyDedup])
  exact ⟨h.2.1, by decide⟩

theorem filterMap_key_eq (hydrate : Nat × Bool → Option MovieRow)
    (hkey : ∀ c m, hydrate c = some m → (m.kinopoisk_id, m.is_tv) = c)
    (l : List (Nat × Bool)) :
    (l.filterMap hydrate).map (fun m => (m.kinopoisk_id, m.is_tv))
      = l.filter (fun c => (hydrate c).isSome) := by
  induction l with
  | nil => rfl
  | cons c rest ih =>
    cases hc : hydrate c with
    | none => simp [List.filterMap_cons, List.filter_cons, hc, ih]
    | some m => simp [List.filterMap_cons, List.filter_cons, hc, ih, hkey c m hc]

/-- **C5.** The collected candidates carry pairwise-distinct
`(external_id, content_type)` keys; after hydration (which maps a candidate key
to at most one movie bearing that key), an arbitrary filtering and an arbitrary
reordering (the ranking), the returned movies still have pairwise-distinct
keys; and the dedup sets are partitioned by content type, so the same external
id is retained once as a movie and once as a series. -/
theorem search_dedup_no_duplicate_identity (s : DedupState)
    (branches : List (Except Unit (List (Nat × Bool))))
    (hydrate : Nat × Bool → Option MovieRow) (keep : MovieRow → Bool)
    (final : List MovieRow)
    (hd : DInv s) (hnd : s.results.Nodup)
    (hkey : ∀ c m, hydrate c = some m → (m.kinopoisk_id, m.is_tv) = c)
    (hperm : final.Perm
      (((gatherBranches s branches).results.filterMap hydrate).filter keep)) :
    (gatherBranches s branches).results.Nodup ∧
      (final.map (fun m => (m.kinopoisk_id, m.is_tv))).Nodup ∧
      (gatherBranches emptyDedup [Except.ok [(7, false), (7, true)]]).results
        = [(7, false), (7, true)] := by
  have hgather := dinv_nodup_gather branches hd hnd
  refine ⟨hgather.2, ?_, by decide⟩
  have hbig : (((gatherBranches s branches).results.filterMap hydrate).map
      (fun m => (m.kinopoisk_id, m.is_tv))).Nodup := by
    rw [filterMap_key_eq hydrate hkey]
    exact hgather.2.filter _
  have hsub : ((((gatherBranches s branches).results.filterMap hydrate).filter
        keep).map (fun m => (m.kinopoisk_id, m.is_tv))).Sublist
      (((gatherBranches s branches).results.filterMap hydrate).map
        (fun m => (m.kinopoisk_id, m.is_tv))) :=
    (List.filter_sublist _).map _
  have hkeep := hbig.sublist hsub
  exact ((hperm.map (fun m => (m.kinopoisk_id, m.is_tv))).nodup_iff).mpr hkeep

/-- Witness for C5: one branch yields the id 5 twice as a movie and once as a
series; the returned keys are exactly `(5, movie)` and `(5, series)`, without
duplicates. -/
theorem search_dedup_no_duplicate_identity_witness :
    (gatherBranches emptyDedup
        [Except.ok [(5, false), (5, false), (5, true)]]).results.Nodup ∧
      (gatherBranches emptyDedup
          [Except.ok [(5, false), (5, false), (5, true)]]).results
        = [(5, false), (5, true)] := by
  have h := search_dedup_no_duplicate_identity emptyDedup
    [Except.ok [(5, false), (5, false), (5, true)]]
    (fun c => some ⟨c.1, c.2, none, none, none, none⟩) (fun _ => true)
    (((gatherBranches emptyDedup
        [Except.ok [(5, false), (5, false), (5, true)]]).results.filterMap
      (fun c => some ⟨c.1, c.2, none, none, none, none⟩)).filter (fun _ => true))
    dinv_empty (by simp [emptyDedup])
    (by intro c m hc; cases hc; rfl) (List.Perm.refl _)
  exact ⟨h.1, by decide⟩

/-! ## User ratings and the wishlist (`db.py`, `save_user_rating`)

State restricted to the two tables the function touches: `user_ratings`
(one row per movie id, unique) and `wishlist` (at most one row per movie id). -/

structure UserDB where
  ratings : Nat → Option (Int × Option String)
  wishlist : Nat → Bool

/-- `save_user_rating(session, movie_id, rating, review)`: upsert the rating
(keeping the old review when the new one is `None`), then delete the movie's
wishlist row if present, commit. -/
def save_user_rating (st : UserDB) (movie_id : Nat) (rating : Int)
    (review : Option String) : UserDB :=
  { ratings := fun m =>
      if m = movie_id then
        match st.ratings movie_id with
        | none => some (rating, review)
        | some (_, oldRev) =>
          some (rating,
            match review with
            | none => oldRev
            | some rv => some rv)
      else st.ratings m,
    wishlist := fun m => if m = movie_id then false else st.wishlist m }

/-- **C9.** After `save_user_rating(movie_id, r)` the movie is not in the
wishlist, its stored rating is `r`, and the ratings and wishlist entries of
every other movie are unchanged. -/
theorem save_rating_removes_wishlist_frame (st : UserDB) (movie_id : Nat)
    (rating : Int) (review : Option String) :
    (save_user_rating st movie_id rating review).wishlist movie_id = false ∧
      ((save_user_rating st movie_id rating review).ratings movie_id).map
        Prod.fst = some rating ∧
      (∀ m, m ≠ movie_id →
        (save_user_rating st movie_id rating review).ratings m
          = st.ratings m) ∧
      (∀ m, m ≠ movie_id →
        (save_user_rating st movie_id rating review).wishlist m
          = st.wishlist m) := by
  refine ⟨by simp [save_user_rating], ?_, ?_, ?_⟩
  · simp only [save_user_rating, if_pos rfl]
    cases h : st.ratings movie_id with
    | none => rfl
    | some p =>
      obtain ⟨r0, rev0⟩ := p
      rfl
  · intro m hm
    simp [save_user_rating, hm]
  · intro m hm
    simp [save_user_rating, hm]

/-- A concrete two-movie state: movie 2 rated 7; movies 1 and 2 wishlisted. -/
def exUserDB : UserDB :=
  ⟨fun m => if m = 2 then some (7, none) else none,
    fun m => m == 1 || m == 2⟩

/-- Witness for C9: rating movie 1 removes it from the wishlist while movie 2
keeps both its wishlist entry and its rating. -/
theorem save_rating_removes_wishlist_frame_witness :
    (save_user_rating exUserDB 1 9 none).wishlist 1 = false ∧
      (save_user_rating exUserDB 1 9 none).wishlist 2 = true ∧
      (save_user_rating exUserDB 1 9 none).ratings 2 = some (7, none) ∧
      ((save_user_rating exUserDB 1 9 none).ratings 1).map Prod.fst
        = some 9 := by
  have h := save_rating_removes_wishlist_frame exUserDB 1 9 none
  refine ⟨h.1, ?_, ?_, h.2.1⟩
  · rw [h.2.2.2 2 (by decide)]
    rfl
  · rw [h.2.2.1 2 (by decide)]
    rfl

/-! ## Entity affinity recomputation (`db.py`, `update_entity_ratings`)

`itemRating` models the `user_ratings` table (unique per movie), the link
lists model the three M2M tables, and the stats maps model the
`(avg_rating, rating_count)` columns of `genres` / `directors` / `actors`.
The batched SQL per entity type joins link → movie → rating, grouped by
entity id; an entity with no qualifying rows gets `(None, 0)`. -/

structure AffinityDB where
  itemRating : Nat → Option Int
  genreLinks : List (Nat × Nat)
  directorLinks : List (Nat × Nat)
  actorLinks : List (Nat × Nat)
  genreStats : Nat → Option ℚ × Nat
  directorStats : Nat → Option ℚ × Nat
  actorStats : Nat → Option ℚ × Nat

/-- `(avg(rating), count(rating))` over all rated items linked to entity
`eid`, the grouped row of the batch query; `(None, 0)` when no row. -/
def entityStat (links : List (Nat × Nat)) (itemRating : Nat → Option Int)
    (eid : Nat) : Option ℚ × Nat :=
  let rs := (links.filter (fun l => l.2 = eid)).filterMap
    (fun l => itemRating l.1)
  if rs.isEmpty then (none, 0)
  else (some ((rs.map (fun r => (r : ℚ))).sum / rs.length), rs.length)

/-- The entity ids linked to a movie (`movie.genre_list` and friends). -/
def linkedEntities (links : List (Nat × Nat)) (movie_id : Nat) : List Nat :=
  (links.filter (fun l => l.1 = movie_id)).map (fun l => l.2)

/-- `update_entity_ratings(session, movie)`: recompute the stats of every
genre, director and actor linked to the movie from the full rating history;
other entities' stats are untouched. -/
def update_entity_ratings (db : AffinityDB) (movie_id : Nat) : AffinityDB :=
  { db with
    genreStats := fun e =>
      if e ∈ linkedEntities db.genreLinks movie_id then
        entityStat db.genreLinks db.itemRating e
      else db.genreStats e,
    directorStats := fun e =>
      if e ∈ linkedEntities db.directorLinks movie_id then
        entityStat db.directorLinks db.itemRating e
      else db.directorStats e,
    actorStats := fun e =>
      if e ∈ linkedEntities db.actorLinks movie_id then
        entityStat db.actorLinks db.itemRating e
      else db.actorStats e }

/-- **C8.** Affinity recomputation is idempotent: with no intervening rating
change, running `update_entity_ratings` twice for a movie produces exactly the
state of running it once — every linked genre, director and actor keeps the
same `(avg_rating, rating_count)` pair. -/
theorem affinity_recompute_idempotent (db : AffinityDB) (movie_id : Nat) :
    update_entity_ratings (update_entity_ratings db movie_id) movie_id
      = update_entity_ratings db movie_id := by
  obtain ⟨ir, gl, dl, al, gs, ds, acs⟩ := db
  simp only [update_entity_ratings]
  congr 1 <;> funext e <;> split_ifs <;> rfl

/-! ## Genre normalization (`genre_utils.py`)

`GENRE_SEED_DATA` is seeded into an empty `genres` table whose primary key
autoincrements, so the n-th seed row (1-based) has id `n`: боевик = 1,
приключения = 2, and so on.  The caches map lowercased canonical names and
comma-separated aliases to those ids.  Python's result `set` is modelled as a
duplicate-free list in insertion order. -/

structure GenreSeed where
  name : String
  aliases : String
  tmdb_movie_id : Option Nat
  tmdb_tv_id : Option Nat
  deriving DecidableEq

def GENRE_SEED_DATA : List GenreSeed := [
  ⟨"боевик", "action, экшен, экшн", some 28, some 10759⟩,
  ⟨"приключения", "adventure, приключение", some 12, some 10759⟩,
  ⟨"мультфильм", "animation, анимация", some 16, some 16⟩,
  ⟨"комедия", "comedy", some 35, some 35⟩,
  ⟨"криминал", "crime, криминальный", some 80, some 80⟩,
  ⟨"документальный", "documentary, документалка", some 99, some 99⟩,
  ⟨"драма", "drama", some 18, some 18⟩,
  ⟨"семейный", "family, семья", some 10751, some 10751⟩,
  ⟨"фэнтези", "fantasy", some 14, some 10765⟩,
  ⟨"история", "history, исторический", some 36, none⟩,
  ⟨"ужасы", "horror, хоррор", some 27, none⟩,
  ⟨"музыка", "music, музыкальный", some 10402, none⟩,
  ⟨"детектив", "mystery, мистика", some 9648, some 9648⟩,
  ⟨"мелодрама", "romance, романтика", some 10749, none⟩,
  ⟨"фантастика", "science fiction, sci-fi, нф", some 878, some 10765⟩,
  ⟨"тв фильм", "tv movie", some 10770, none⟩,
  ⟨"триллер", "thriller", some 53, none⟩,
  ⟨"военный", "war, война", some 10752, some 10768⟩,
  ⟨"вестерн", "western", some 37, some 37⟩,
  ⟨"детский", "kids", none, some 10762⟩,
  ⟨"новости", "news", none, some 10763⟩,
  ⟨"реалити", "reality", none, some 10764⟩,
  ⟨"мыльная опера", "soap", none, some 10766⟩,
  ⟨"ток-шоу", "talk", none, some 10767⟩]

/-- Combined genre phrases and the canonical names they expand to. -/
def COMBINED_GENRES : List (String × List String) := [
  ("боевик и приключения", ["боевик", "приключения"]),
  ("action & adventure", ["боевик", "приключения"]),
  ("нф и фэнтези", ["фантастика", "фэнтези"]),
  ("sci-fi & fantasy", ["фантастика", "фэнтези"]),
  ("война и политика", ["военный"]),
  ("war & politics", ["военный"])]

/-- `str.lower()` (character-wise, as in the ASCII inputs at issue). -/
def myToLower (s : String) : String := String.mk (s.data.map Char.toLower)

/-- `str.strip()`. -/
def myTrim (s : String) : String :=
  String.mk
    (((s.data.dropWhile Char.isWhitespace).reverse.dropWhile
      Char.isWhitespace).reverse)

/-- If `sep` is a prefix of the list, the remainder after it. -/
def dropPrefixChars : List Char → List Char → Option (List Char)
  | [], rest => some rest
  | _ :: _, [] => none
  | p :: ps, c :: cs => if c = p then dropPrefixChars ps cs else none

/-- `str.split(sep)` on character lists, fuelled for structural recursion
(`fuel ≥ length + 1` always suffices for a non-empty separator). -/
def splitCharsFuel (sep : List Char) : Nat → List Char → List (List Char)
  | _, [] => [[]]
  | 0, cs => [cs]
  | Nat.succ n, c :: cs =>
    match dropPrefixChars sep (c :: cs) with
    | some rest => [] :: splitCharsFuel sep n rest
    | none =>
      match splitCharsFuel sep n cs with
      | [] => [[c]]
      | g :: gs => (c :: g) :: gs

/-- `str.split(sep)`. -/
def mySplitOn (s sep : String) : List String :=
  (splitCharsFuel sep.data (s.data.length + 1) s.data).map String.mk

/-- Pair the seed rows with their autoincrement ids, starting at `start`. -/
def seedIds (seeds : List GenreSeed) (start : Nat) : List (Nat × GenreSeed) :=
  match seeds with
  | [] => []
  | s :: rest => (start, s) :: seedIds rest (start + 1)

/-- First binding of `s` (keys are pairwise distinct in both caches). -/
def lookupStr {β : Type} (s : String) : List (String × β) → Option β
  | [] => none
  | (k, v) :: rest => if k = s then some v else lookupStr s rest

/-- `_genre_cache`: lowercased canonical name → genre id. -/
def genreCache : List (String × Nat) :=
  (seedIds GENRE_SEED_DATA 1).map (fun p => (myToLower p.2.name, p.1))

/-- `_alias_cache`: each stripped, lowercased alias → genre id. -/
def aliasCache : List (String × Nat) :=
  ((seedIds GENRE_SEED_DATA 1).map (fun p =>
    (mySplitOn p.2.aliases ", ").filterMap (fun a =>
      let a2 := myToLower (myTrim a)
      if a2 = "" then none else some (a2, p.1)))).flatten

/-- `_lookup_genre`: canonical names first, then aliases, else `None`. -/
def lookup_genre (name : String) : Option Nat :=
  match lookupStr name genreCache with
  | some gid => some gid
  | none => lookupStr name aliasCache

/-- `genre_ids.add(...)` on the insertion-ordered model of the result set. -/
def insertId (acc : List Nat) (gid : Nat) : List Nat :=
  if gid ∈ acc then acc else acc ++ [gid]

/-- Expansion of a combined phrase: each canonical name resolved through
`_genre_cache` only. -/
def addCombined (acc : List Nat) (names : List String) : List Nat :=
  names.foldl (fun a n =>
    match lookupStr n genreCache with
    | some gid => insertId a gid
    | none => a) acc

/-- `normalize_genres(genre_string, session)` over the seeded table:
(1) empty input gives the empty set; (2) a whole-input combined phrase
expands directly; (3) otherwise split on commas, expanding per-part combined
phrases, splitting parts on the conjunction token " и ", and resolving single
parts through names then aliases; unresolved tokens are dropped. -/
def normalize_genres (genre_string : String) : List Nat :=
  if genre_string = "" then []
  else
    let genre_lower := myTrim (myToLower genre_string)
    match lookupStr genre_lower COMBINED_GENRES with
    | some names => addCombined [] names
    | none =>
      (mySplitOn genre_string ",").foldl (fun acc part0 =>
        let part := myTrim part0
        if part = "" then acc
        else
          let part_lower := myToLower part
          match lookupStr part_lower COMBINED_GENRES with
          | some names => addCombined acc names
          | none =>
            if 1 < (mySplitOn part_lower " и ").length then
              (mySplitOn part " и ").foldl (fun a sub0 =>
                let sub := myToLower (myTrim sub0)
                if sub = "" then a
                else
                  match lookup_genre sub with
                  | some gid => insertId a gid
                  | none => a) acc
            else
              match lookup_genre part_lower with
              | some gid => insertId acc gid
              | none => acc) []

/-- **C7.** With the seeded genre table, `normalize("action & adventure")`
returns exactly the two distinct canonical ids for action (боевик, id 1) and
adventure (приключения, id 2) — never a single merged id — through the
whole-input compound-phrase expansion of `COMBINED_GENRES`. -/
theorem normalize_action_adventure_two_ids :
    normalize_genres "action & adventure" = [1, 2] ∧
      lookupStr "action & adventure" COMBINED_GENRES
        = some ["боевик", "приключения"] ∧
      lookupStr "боевик" genreCache = some 1 ∧
      lookupStr "приключения" genreCache = some 2 ∧
      lookupStr "action" aliasCache = some 1 ∧
      lookupStr "adventure" aliasCache = some 2 ∧
      (1 : Nat) ≠ 2 := by
  refine ⟨?_, ?_, ?_, ?_, ?_, ?_, ?_⟩ <;> decide

end MoviePicker
